import Mathlib

/-!
Verification development for the polynomial-grapher repository
(`data_loader.py`, `plotter.py`).

The Python source is shallowly embedded over exact rationals (`ℚ`):
pure numeric code becomes Lean functions, fallible steps return
`Option`/`Except`, and the mutable `skipped_curves` / `data_ref`
accumulators become explicit state threading.  The embedding has no
non-finite values, so NumPy's finiteness mask (`np.isfinite`) is the
identity here; none of the verified properties depend on NaN/Inf
propagation.
-/

set_option maxHeartbeats 1000000

namespace Grapher

/-- From `plotter.py` lines 67-76: sample count chosen from the width of
the x-range (`x_range_width = x_max - x_min`). -/
def numPoints (w : ℚ) : ℕ :=
  if w ≤ 100 then 2000
  else if w ≤ 1000 then 3000
  else if w ≤ 10000 then 5000
  else 8000

/-- From `plotter.py` lines 132-136 and `data_loader.py` lines 96-101
(identical logic, `MAX_DEGREE = 10`): if `len(coeffs) - 1 > 10`, keep
only the first 11 entries (`coeffs[:11]`). -/
def capCoeffs (c : List ℚ) : List ℚ :=
  if c.length - 1 > 10 then c.take 11 else c

/-- The `1e-12` epsilon used throughout `data_loader.py` for
"effectively zero" tests: the rational `10⁻¹²` (written with `mkRat`
so that concrete comparisons evaluate inside the kernel). -/
def eps12 : ℚ := mkRat 1 (10 ^ 12)

/-- From `data_loader.py` lines 103-107: the
`while len(coefficients) > 1 and abs(coefficients[0]) < 1e-12` loop that
drops leading near-zero coefficients (always keeping at least one). -/
def stripLeading : List ℚ → List ℚ
  | [] => []
  | c :: rest => if rest ≠ [] ∧ |c| < eps12 then stripLeading rest else c :: rest

/-- `np.linspace x_min x_max n`: `n` evenly spaced samples from `x_min`
to `x_max` (from `plotter.py` lines 91 and 139). -/
def linspace (a b : ℚ) (n : ℕ) : List ℚ :=
  (List.range n).map fun i => a + (b - a) * i / (n - 1)

/-- `np.polyval coeffs x` (from `plotter.py` lines 93 and 143): Horner
evaluation, coefficients highest degree first. -/
def polyval (c : List ℚ) (x : ℚ) : ℚ :=
  c.foldl (fun acc a => acc * x + a) 0

/-- From `plotter.py` lines 353-363 (and the per-curve copy at lines
418-429): auto-scale resolution from the collected sample values
`all_y_vals`; `min`/`max` over the list, 10% symmetric padding when the
span is positive, otherwise `±1`.  `none` corresponds to the
`all_y_vals` empty case in which the code keeps the user bounds. -/
def resolveAuto : List ℚ → Option (ℚ × ℚ)
  | [] => none
  | h :: t =>
    let m := t.foldl min h
    let M := t.foldl max h
    let span := M - m
    if span > 0 then some (m - (1 / 10) * span, M + (1 / 10) * span)
    else some (m - 1, M + 1)

/-- Tail of the entered-the-range mask: `b[i] && !b[i-1]` for `i ≥ 1`
(`prev` is `b[i-1]`). -/
def enterTail (prev : Bool) : List Bool → List Bool
  | [] => []
  | b :: rest => (b && !prev) :: enterTail b rest

/-- From `plotter.py` lines 163-165 / 188-190:
`enter = in_bounds & ~np.roll(in_bounds, 1)` followed by
`enter[0] = in_bounds[0]`.  (The wrap-around element introduced by
`np.roll` only affects index 0, which is overwritten.) -/
def enterMask : List Bool → List Bool
  | [] => []
  | b0 :: rest => b0 :: enterTail b0 rest

/-- From `plotter.py` lines 167-172 / 192-197: if the enter mask is
somewhere true, keep every point from the first enter index onward
(`stop_mask[first_enter_idx:] = True` selects exactly the suffix);
otherwise the curve "never entered" the range (`none`). -/
def applyStop (b : List Bool) (pts : List (ℚ × ℚ)) : Option (List (ℚ × ℚ)) :=
  match (enterMask b).findIdx? (fun x => x) with
  | none => none
  | some i => some (pts.drop i)

/-- Skip reasons recorded by `plot_single_curve` (`plotter.py`). -/
inductive SkipR where
  | insufficientFinite
  | neverEnteredX
  | neverEnteredY
  | insufficientAfterBounds
  | noPointsAfterClip
  | noData
deriving DecidableEq, Repr

/-- From `plotter.py` lines 126-245 (`plot_single_curve`), the point
pipeline after `np.polyval`: finiteness check (identity over `ℚ`,
kept as the length test of line 157), X stop logic (lines 162-178),
Y stop logic (lines 183-205, guarded by
`stop_y_exit and not auto_scale_y and bounds present`), the
length re-check (line 211), and the pointwise Y clip (lines 216-219,
guarded by `not auto_scale_y and bounds present`), ending with the
final length check (line 221).  `ey1`/`ey2` are the effective Y bounds
(`current_y_min`/`current_y_max` when supplied, else `y_min`/`y_max`). -/
def plotSingleCurveCore (stopX stopY autoY : Bool) (xmin xmax : ℚ)
    (ey1 ey2 : Option ℚ) (pts : List (ℚ × ℚ)) :
    Except SkipR (List (ℚ × ℚ)) :=
  if pts.length < 2 then .error .insufficientFinite
  else
    let step1 : Except SkipR (List (ℚ × ℚ)) :=
      if stopX then
        match applyStop (pts.map fun p => decide (xmin ≤ p.1 ∧ p.1 ≤ xmax)) pts with
        | none => .error .neverEnteredX
        | some l => .ok l
      else .ok pts
    match step1 with
    | .error e => .error e
    | .ok ptsB =>
      let step2 : Except SkipR (List (ℚ × ℚ)) :=
        match ey1, ey2 with
        | some lo, some hi =>
          if stopY && !autoY then
            match applyStop (ptsB.map fun p => decide (lo ≤ p.2 ∧ p.2 ≤ hi)) ptsB with
            | none => .error .neverEnteredY
            | some l => .ok l
          else .ok ptsB
        | _, _ => .ok ptsB
      match step2 with
      | .error e => .error e
      | .ok ptsC =>
        if ptsC.length < 2 then .error .insufficientAfterBounds
        else
          let ptsD : List (ℚ × ℚ) :=
            match ey1, ey2 with
            | some lo, some hi =>
              if !autoY then ptsC.filter fun p => decide (lo ≤ p.2 ∧ p.2 ≤ hi)
              else ptsC
            | _, _ => ptsC
          if ptsD.length < 2 then .error .noPointsAfterClip
          else .ok ptsD

/-- From `plotter.py` lines 78-114 (`evaluate_curve_for_scaling`), the
part after `np.polyval`: the finite-count test (identity over `ℚ`,
kept as the length test), then — because the caller passes
`disable_stop_logic = not stop_y_exit` — the Y stop logic runs exactly
when `stop_y_exit` holds and both user Y bounds are present; it keeps
the suffix from the first enter index, or the whole list when the curve
never enters. -/
def scalingYVals (stopY : Bool) (uy1 uy2 : Option ℚ) (ys : List ℚ) :
    Option (List ℚ) :=
  if ys.length < 2 then none
  else
    match uy1, uy2 with
    | some lo, some hi =>
      if stopY then
        let b := ys.map fun y => decide (lo ≤ y ∧ y ≤ hi)
        match (enterMask b).findIdx? (fun x => x) with
        | some i => some (ys.drop i)
        | none => some ys
      else some ys
    | _, _ => some ys

/-- Evaluate one curve through the plotting pipeline: degree cap,
sampling, Horner evaluation, then `plotSingleCurveCore`
(from `plotter.py` lines 126-245 together with lines 139-143). -/
def runCurve (stopX stopY autoY : Bool) (xmin xmax : ℚ)
    (ey1 ey2 : Option ℚ) (coeffs : List ℚ) :
    Except SkipR (List (ℚ × ℚ)) :=
  let cs := capCoeffs coeffs
  let xs := linspace xmin xmax (numPoints (xmax - xmin))
  plotSingleCurveCore stopX stopY autoY xmin xmax ey1 ey2
    (xs.map fun x => (x, polyval cs x))

/-- Hard-error test on the pipeline result. -/
def isHardError {α : Type} : Except String α → Bool
  | .error _ => true
  | .ok _ => false

/-- From `plot_graphs` (`plotter.py`): the input validation at lines
24-28 (`raise ValueError` when `x_min > x_max`; empty input returns
`figs, ["No data provided for plotting"]`), followed by the
"All in One" two-pass flow of lines 324-398: a scaling pass collecting
`all_y_vals` via `evaluate_curve_for_scaling`, auto-scale resolution,
then the plotting pass over the curves that produced scaling data,
with the resolved bounds as effective Y bounds.  Per-curve failures
are collected as skip records, never raised. -/
def plotGraphsTop (stopX stopY autoY : Bool) (xmin xmax : ℚ)
    (uy1 uy2 : Option ℚ) (entries : List (List Char × List ℚ)) :
    Except String (List (List Char × List (ℚ × ℚ)) × List SkipR) :=
  if xmin > xmax then .error "x_min must be <= x_max"
  else if entries = [] then .ok ([], [.noData])
  else
    let xs := linspace xmin xmax (numPoints (xmax - xmin))
    let scaling := fun (e : List Char × List ℚ) =>
      scalingYVals stopY uy1 uy2 (xs.map (polyval (capCoeffs e.2)))
    let allVals := entries.foldl
      (fun acc e => match scaling e with
        | some vs => acc ++ vs
        | none => acc) []
    let fb : Option ℚ × Option ℚ :=
      match (if autoY then resolveAuto allVals else none) with
      | some (a, b) => (some a, some b)
      | none => (uy1, uy2)
    let results := (entries.filter fun e => (scaling e).isSome).map
      fun e => (e.1, runCurve stopX stopY autoY xmin xmax fb.1 fb.2 e.2)
    .ok (results.filterMap
          (fun r => match r.2 with
            | .ok pts => some (r.1, pts)
            | .error _ => none),
         results.filterMap
          (fun r => match r.2 with
            | .ok _ => none
            | .error s => some s))

/-! ### Loader embedding (`data_loader.py`) -/

/-- One whitespace-dropping pass from the front (the leading half of
Python `str.strip()`). -/
def dropWS : List Char → List Char
  | [] => []
  | c :: rest => if c.isWhitespace then dropWS rest else c :: rest

/-- Python `str.strip()`: drop leading and trailing whitespace. -/
def stripChars (l : List Char) : List Char :=
  (dropWS ((dropWS l).reverse)).reverse

/-- Python `str.lower()` restricted to ASCII letters (the only case
mapping the loader's checks can meet). -/
def lowerC (c : Char) : Char :=
  match c with
  | 'A' => 'a' | 'B' => 'b' | 'C' => 'c' | 'D' => 'd' | 'E' => 'e'
  | 'F' => 'f' | 'G' => 'g' | 'H' => 'h' | 'I' => 'i' | 'J' => 'j'
  | 'K' => 'k' | 'L' => 'l' | 'M' => 'm' | 'N' => 'n' | 'O' => 'o'
  | 'P' => 'p' | 'Q' => 'q' | 'R' => 'r' | 'S' => 's' | 'T' => 't'
  | 'U' => 'u' | 'V' => 'v' | 'W' => 'w' | 'X' => 'x' | 'Y' => 'y'
  | 'Z' => 'z'
  | other => other

/-- Python `str.lower()` on a character list. -/
def lowerL (l : List Char) : List Char := l.map lowerC

/-- Python `str.replace('  ', ' ')`: one left-to-right pass replacing
each non-overlapping pair of spaces by a single space. -/
def replDouble : List Char → List Char
  | [] => []
  | [c] => [c]
  | a :: b :: rest =>
    if a = ' ' ∧ b = ' ' then ' ' :: replDouble rest
    else a :: replDouble (b :: rest)

/-- Boolean list-starts-with test. -/
def prefixB : List Char → List Char → Bool
  | [], _ => true
  | _ :: _, [] => false
  | a :: as, b :: bs => (a == b) && prefixB as bs

/-- Python `in` on strings: contiguous substring occurrence. -/
def substrB (p : List Char) : List Char → Bool
  | [] => prefixB p []
  | c :: rest => prefixB p (c :: rest) || substrB p rest

/-- Numeric value of a digit string (most significant first). -/
def natOfDigits (l : List Char) : ℕ :=
  l.foldl (fun a c => a * 10 + (c.toNat - 48)) 0

/-- Models CPython `float(str)` on an already-lowercased string:
optional sign, then `digits[.digits][e[sign]digits]` or
`.digits[e[sign]digits]`, returning the exact rational value.
(`inf`/`infinity`/`nan` are handled by the acceptance test below;
digit-group underscores are not modelled.) -/
def pyFloatValQ (s : List Char) : Option ℚ :=
  let sign : ℚ := match s with
    | '-' :: _ => -1
    | _ => 1
  let t : List Char := match s with
    | '+' :: r => r
    | '-' :: r => r
    | r => r
  let m := t.takeWhile (fun c => c ≠ 'e')
  let r := t.dropWhile (fun c => c ≠ 'e')
  let mant : Option ℚ :=
    let ip := m.takeWhile Char.isDigit
    let rest := m.dropWhile Char.isDigit
    match rest with
    | [] => if m.isEmpty then none else some (natOfDigits ip : ℚ)
    | '.' :: frac =>
      if ip.isEmpty && frac.isEmpty then none
      else if frac.all Char.isDigit then
        some ((natOfDigits ip : ℚ) + mkRat (natOfDigits frac) (10 ^ frac.length))
      else none
    | _ => none
  match mant, r with
  | some q, [] => some (sign * q)
  | some q, 'e' :: ex =>
    let esign : ℤ := match ex with
      | '-' :: _ => -1
      | _ => 1
    let ed : List Char := match ex with
      | '+' :: d => d
      | '-' :: d => d
      | d => d
    if ed.isEmpty || !(ed.all Char.isDigit) then none
    else some (sign * q * (10 : ℚ) ^ (esign * (natOfDigits ed : ℤ)))
  | _, _ => none

/-- Acceptance of Python `float()` on an already-lowercased string
(used by `is_valid_data_row`'s `float(name_str)` probe). -/
def pyFloatOk (s : List Char) : Bool :=
  let t : List Char := match s with
    | '+' :: r => r
    | '-' :: r => r
    | r => r
  t == "inf".toList || t == "infinity".toList || t == "nan".toList ||
    (pyFloatValQ s).isSome

/-- A spreadsheet cell as the loader sees it: missing (pandas `NaN`),
a string, or a numeric value. -/
inductive Cell where
  | na : Cell
  | str : List Char → Cell
  | num : ℚ → Cell
deriving DecidableEq

/-- From `data_loader.py` lines 173-181: a cell counts as data when it
is not `NaN` and its string form does not strip to the empty string. -/
def hasDataCell : Cell → Bool
  | .na => false
  | .num _ => true
  | .str s => !(stripChars s).isEmpty

/-- From `data_loader.py` lines 224-249: per-cell coefficient
conversion.  `NaN`, blank-ish strings and unparsable strings become
`0.0`; parsable strings their value; numeric cells are kept.
(`inf`/`nan`-valued string cells have no `ℚ` image and map to 0 here;
no verified claim exercises them.) -/
def cellCoeff : Cell → ℚ
  | .na => 0
  | .num q => q
  | .str s =>
    let t := stripChars s
    if t = [] ∨ lowerL t ∈ ["nan".toList, "none".toList, "null".toList] then 0
    else
      match pyFloatValQ (lowerL t) with
      | some q => q
      | none => 0

/-- From `data_loader.py` lines 153-157. -/
def headerPatterns : List (List Char) :=
  ["name", "curve", "polynomial", "coeff", "coefficient", "degree",
   "header", "title", "data", "row", "index", "id", "label",
   "a0", "a1", "a2", "b0", "c0", "x", "y"].map String.toList

/-- From `data_loader.py` lines 201-204. -/
def invalidPatterns : List (List Char) :=
  ["unnamed", "curve", "poly", "equation", "data", "row",
   "sample", "test", "example", "default"].map String.toList

/-- From `data_loader.py` lines 139-183 (`is_valid_data_row`), the
early-`return False` chain written as one Boolean conjunction (the
Python has no side effects here).  A missing name cell fails — this
also covers the all-`NaN`-row check, which can only fire when the
name cell is `NaN`.  Then the stripped, lowercased name must not be a
known header word, must not start with `header` or `title`, must not
parse as a float, must be at least 2 characters long, and some later
cell must hold data. -/
def isValidDataRow (nameCell : Option (List Char)) (rest : List Cell) : Bool :=
  match nameCell with
  | none => false
  | some raw =>
    let ns := lowerL (stripChars raw)
    !(decide (ns ∈ headerPatterns)) &&
    !(prefixB "header".toList ns) && !(prefixB "title".toList ns) &&
    !(pyFloatOk ns) &&
    !(decide (ns.length < 2)) &&
    rest.any hasDataCell

/-- From `data_loader.py` lines 186-214 (`extract_valid_name`):
strip, reject blank-ish names, collapse double spaces, reject names
containing any of the generic patterns, shorten over-long names. -/
def extractValidName (raw : List Char) : Option (List Char) :=
  if stripChars raw = [] ∨
      lowerL (stripChars raw) ∈
        ["nan".toList, "none".toList, ([] : List Char), "null".toList]
  then none
  else if invalidPatterns.any
      (fun p => substrB p (lowerL (replDouble (stripChars (stripChars raw)))))
  then none
  else if 100 < (replDouble (stripChars (stripChars raw))).length then
    some ((replDouble (stripChars (stripChars raw))).take 50 ++ "...".toList)
  else some (replDouble (stripChars (stripChars raw)))

/-- From `data_loader.py` lines 217-255
(`extract_valid_coefficients`): empty input is rejected, every cell is
converted, and an all-effectively-zero result is rejected (the
all-zero rejection of lines 251-255). -/
def extractCoeffs (cells : List Cell) : Option (List ℚ) :=
  if cells.length = 0 then none
  else
    let cs := cells.map cellCoeff
    if cs.all fun q => decide (|q| < eps12) then none else some cs

/-- Maximum of the absolute values of a list (0 for the empty list,
which the callers exclude). -/
def maxAbsL : List ℚ → ℚ
  | [] => 0
  | h :: t => t.foldl (fun a x => max a (abs x)) (abs h)

/-- Minimum of the absolute values of a list (0 for the empty list,
which the callers exclude). -/
def minAbsL : List ℚ → ℚ
  | [] => 0
  | h :: t => t.foldl (fun a x => min a (abs x)) (abs h)

/-- From `data_loader.py` lines 286-333 (`validate_polynomial`):
nonempty, not all zero, degree at most 10, max `|c|` at most `1e15`,
at least one `|c| > 1e-10`, and for degree above 3 with at least two
nonzero coefficients a conditioning-ratio bound of `1e12`. -/
def validatePolynomial (cs : List ℚ) : Bool :=
  if cs.isEmpty then false
  else if cs.all fun q => decide (|q| < eps12) then false
  else if cs.length - 1 > 10 then false
  else if decide ((10 : ℚ) ^ 15 < maxAbsL cs) then false
  else if (cs.filter fun q => decide (mkRat 1 (10 ^ 10) < |q|)).length < 1 then false
  else if cs.length - 1 > 3 then
    let nz := cs.filter fun q => decide (eps12 < |q|)
    if nz.length > 1 then decide (maxAbsL nz ≤ (10 : ℚ) ^ 12 * minAbsL nz)
    else true
  else true

/-- Skip reasons recorded by `process_row` (`data_loader.py`); the
human-readable message texts and row indices are abstracted to this
enum. -/
inductive SkipMsg where
  | invalidName
  | duplicateName
  | noValidCoefficients
  | allZero
  | noNonZeroAfterCleaning
  | invalidPolynomial
deriving DecidableEq

/-- An accepted row of the loader output. -/
structure LoadedEntry where
  name : List Char
  coefficients : List ℚ
deriving DecidableEq

/-- The loader's mutable accumulators (`data_ref`, `skipped_rows`). -/
structure LoaderState where
  dataRef : List LoadedEntry
  skipped : List SkipMsg
deriving DecidableEq

/-- From `data_loader.py` lines 65-136 (`process_row`): row
validation, name extraction, duplicate-name check, coefficient
extraction, all-zero check, degree cap, leading-zero strip,
post-cleaning all-zero check, stability validation; a surviving row is
appended to `data_ref`, and every non-silent skip appends one record
to `skipped_rows`. -/
def processRow (nameCell : Option (List Char)) (cells : List Cell)
    (st : LoaderState) : LoaderState :=
  if !(isValidDataRow nameCell cells) then st
  else
    match nameCell with
    | none => st
    | some raw =>
      match extractValidName raw with
      | none => { st with skipped := st.skipped ++ [SkipMsg.invalidName] }
      | some nm =>
        if st.dataRef.any fun e => decide (lowerL e.name = lowerL nm) then
          { st with skipped := st.skipped ++ [SkipMsg.duplicateName] }
        else
          match extractCoeffs cells with
          | none =>
            { st with skipped := st.skipped ++ [SkipMsg.noValidCoefficients] }
          | some cs =>
            if cs.all fun q => decide (|q| < eps12) then
              { st with skipped := st.skipped ++ [SkipMsg.allZero] }
            else
              let cs2 := stripLeading (capCoeffs cs)
              if cs2.all fun q => decide (|q| < eps12) then
                { st with skipped := st.skipped ++ [SkipMsg.noNonZeroAfterCleaning] }
              else if !(validatePolynomial cs2) then
                { st with skipped := st.skipped ++ [SkipMsg.invalidPolynomial] }
              else
                { st with dataRef := st.dataRef ++ [⟨nm, cs2⟩] }

/-! ### Claim theorems: sampling density and degree cap -/

/-- Claim C8: the number of x-samples is a function of the x-range
width equal to 2000 whenever the width is at most 100, equal to 8000
whenever the width exceeds 10000, and never exceeding 8000. -/
theorem C8_num_points (w : ℚ) :
    numPoints w ≤ 8000 ∧ (w ≤ 100 → numPoints w = 2000) ∧
      (10000 < w → numPoints w = 8000) := by
  refine ⟨?_, fun h => ?_, fun h => ?_⟩ <;>
    unfold numPoints <;> split_ifs <;>
    first
    | rfl
    | omega
    | linarith

/-- Witness for C8 at concrete widths. -/
theorem C8_num_points_witness :
    numPoints 50 = 2000 ∧ numPoints 20000 = 8000 :=
  ⟨(C8_num_points 50).2.1 (by norm_num), (C8_num_points 20000).2.2 (by norm_num)⟩

/-- Claim C9: the degree-10 cap is idempotent, and a vector of length
at most 11 (degree at most 10) is returned unchanged. -/
theorem C9_cap_idempotent (c : List ℚ) :
    capCoeffs (capCoeffs c) = capCoeffs c ∧
      (c.length ≤ 11 → capCoeffs c = c) := by
  constructor
  · by_cases h : c.length - 1 > 10
    · have hlen : (c.take 11).length = 11 := by
        rw [List.length_take]; omega
      simp only [capCoeffs, if_pos h, hlen]
      norm_num
    · simp only [capCoeffs, if_neg h]
  · intro hle
    have h : ¬ c.length - 1 > 10 := by omega
    simp only [capCoeffs, if_neg h]

/-- Witness for C9: a degree-1 vector is left unchanged by the cap. -/
theorem C9_cap_idempotent_witness :
    capCoeffs [(1 : ℚ), 2] = [(1 : ℚ), 2] :=
  (C9_cap_idempotent [(1 : ℚ), 2]).2 (by decide)

/-! ### Claim theorems: auto-scale resolution -/

theorem foldl_min_eq (l : List ℚ) (x a : ℚ)
    (hmem : a = x ∨ a ∈ l) (hx : a ≤ x) (hl : ∀ y ∈ l, a ≤ y) :
    l.foldl min x = a := by
  induction l generalizing x with
  | nil =>
    rcases hmem with h | h
    · simpa using h.symm
    · simp at h
  | cons y t ih =>
    have hy : a ≤ y := hl y (by simp)
    have ht : ∀ z ∈ t, a ≤ z := fun z hz => hl z (by simp [hz])
    simp only [List.foldl_cons]
    apply ih (min x y)
    · rcases hmem with h | h
      · left
        subst h
        exact (min_eq_left hy).symm
      · rcases List.mem_cons.mp h with h | h
        · left
          subst h
          exact (min_eq_right hx).symm
        · right; exact h
    · exact le_min hx hy
    · exact ht

theorem foldl_max_eq (l : List ℚ) (x a : ℚ)
    (hmem : a = x ∨ a ∈ l) (hx : x ≤ a) (hl : ∀ y ∈ l, y ≤ a) :
    l.foldl max x = a := by
  induction l generalizing x with
  | nil =>
    rcases hmem with h | h
    · simpa using h.symm
    · simp at h
  | cons y t ih =>
    have hy : y ≤ a := hl y (by simp)
    have ht : ∀ z ∈ t, z ≤ a := fun z hz => hl z (by simp [hz])
    simp only [List.foldl_cons]
    apply ih (max x y)
    · rcases hmem with h | h
      · left
        subst h
        exact (max_eq_left hy).symm
      · rcases List.mem_cons.mp h with h | h
        · left
          subst h
          exact (max_eq_right hx).symm
        · right; exact h
    · exact max_le hx hy
    · exact ht

/-- Claim C4: for a batch of surviving sample values with minimum `a`
and maximum `b`, `a ≠ b`, the auto-scale resolver returns exactly
`(a - 0.1*(b-a), b + 0.1*(b-a))`, which strictly brackets `[a, b]`;
and for a constant batch (`a = b`) it returns exactly `(a-1, a+1)`. -/
theorem C4_autoscale_padding (vals : List ℚ) (a b : ℚ)
    (hA : a ∈ vals) (hB : b ∈ vals)
    (hmin : ∀ y ∈ vals, a ≤ y) (hmax : ∀ y ∈ vals, y ≤ b) :
    (a ≠ b →
      resolveAuto vals =
        some (a - (1 / 10) * (b - a), b + (1 / 10) * (b - a)) ∧
      a - (1 / 10) * (b - a) < a ∧ b < b + (1 / 10) * (b - a)) ∧
    (a = b → resolveAuto vals = some (a - 1, a + 1)) := by
  obtain ⟨h, t, rfl⟩ : ∃ h t, vals = h :: t := by
    cases vals with
    | nil => simp at hA
    | cons h t => exact ⟨h, t, rfl⟩
  have hab : a ≤ b := le_trans (hmin b hB) (le_refl b)
  have hm : t.foldl min h = a := by
    apply foldl_min_eq
    · rcases List.mem_cons.mp hA with h1 | h1
      · left; exact h1
      · right; exact h1
    · exact hmin h (by simp)
    · exact fun y hy => hmin y (by simp [hy])
  have hM : t.foldl max h = b := by
    apply foldl_max_eq
    · rcases List.mem_cons.mp hB with h1 | h1
      · left; exact h1
      · right; exact h1
    · exact hmax h (by simp)
    · exact fun y hy => hmax y (by simp [hy])
  constructor
  · intro hne
    have hspan : b - a > 0 := by
      rcases lt_or_eq_of_le hab with h1 | h1
      · linarith
      · exact absurd h1 hne
    refine ⟨?_, by linarith, by linarith⟩
    simp only [resolveAuto, hm, hM, if_pos hspan]
  · intro heq
    subst heq
    simp only [resolveAuto, hm, hM, sub_self]
    norm_num

/-- Witness for C4 at the batch `[1, 3]` (and the constant batch `[7]`). -/
theorem C4_autoscale_padding_witness :
    resolveAuto [(1 : ℚ), 3] = some (4 / 5, 16 / 5) ∧
      resolveAuto [(7 : ℚ)] = some (6, 8) := by
  constructor
  · have h := (C4_autoscale_padding [(1 : ℚ), 3] 1 3 (by norm_num) (by norm_num)
      (by intro y hy; rcases List.mem_cons.mp hy with h | h <;> simp_all)
      (by intro y hy; rcases List.mem_cons.mp hy with h | h <;> simp_all)).1
      (by norm_num)
    rw [h.1]
    norm_num
  · have h := (C4_autoscale_padding [(7 : ℚ)] 7 7 (by norm_num) (by norm_num)
      (by intro y hy; simp_all) (by intro y hy; simp_all)).2 rfl
    rw [h]
    norm_num

/-- Claim C3 counterexample: the resolver applies no ceiling to the
resolved `y_max`.  On the batch `{0, 10^16}` it returns exactly the
unclamped padded value `1.1 * 10^16 = 11 * 10^15`, far above `10^15`
(the only configured "maximum magnitude" anywhere in the repository,
the coefficient ceiling of `validate_polynomial`), and no clamp
diagnostic exists in `plot_graphs`. -/
theorem C3_no_clamp_counterexample :
    resolveAuto [(0 : ℚ), 10 ^ 16] = some (-(10 ^ 15), 11 * 10 ^ 15) ∧
      (10 : ℚ) ^ 15 < 11 * 10 ^ 15 := by
  constructor
  · simp only [resolveAuto, List.foldl]
    norm_num
  · norm_num

/-- Claim C3 amended: no ceiling clamps the resolved `y_max`; for every
candidate ceiling `C` there is a batch whose resolved upper bound
exceeds `C` (the resolver always returns the raw padded bounds, and no
clamp diagnostic is ever emitted). -/
theorem C3_unclamped (C : ℚ) :
    ∃ vals p, resolveAuto vals = some p ∧ C < p.2 := by
  refine ⟨[0, max C 0 + 1], (-(1 / 10) * (max C 0 + 1), (max C 0 + 1) + (1 / 10) * (max C 0 + 1)), ?_, ?_⟩
  · have hpos : (0 : ℚ) < max C 0 + 1 := by
      have := le_max_right C 0
      linarith
    simp only [resolveAuto, List.foldl]
    rw [min_eq_left (le_of_lt hpos), max_eq_right (le_of_lt hpos), sub_zero, if_pos hpos]
    norm_num
  · have h1 := le_max_left C 0
    have h2 := le_max_right C 0
    simp only
    linarith

/-! ### Claim theorems: stop-at-exit semantics -/

/-- Claim C1 (code behavior at the failing input): with Y stop-at-exit
enabled, Y bounds `[0, 10]`, no auto-scale, and the sampled curve
`(0,5), (1,50), (2,5)` — in range, exiting, re-entering — the code
keeps every sample from the first in-range sample onward and then
removes out-of-range samples pointwise, so the re-entry sample `(2,5)`
survives.  The claimed stop-at-exit semantics would truncate at the
first exit, yielding at most `[(0,5)]` and certainly nothing after the
re-entry. -/
theorem C1_reentry_point_retained :
    plotSingleCurveCore false true false 0 2 (some 0) (some 10)
        [(0, 5), (1, 50), (2, 5)] =
      .ok [(0, 5), (2, 5)] := by
  rfl

/-- Claim C2 counterexample: single curve sampled as
`(0,-100), (1,0), (2,20)`, user Y bounds `[0,10]`, Y stop-at-exit
enabled, Y auto-scale requested.  The scaling pass (stop logic applied
against the user bounds) collects `[0, 20]`; the resolver pads this to
`(-2, 22)`.  The final pass, because `auto_scale_y` holds, applies no
Y filtering at all and returns all three samples — including
`(0,-100)`, which lies outside the resolved bounds — whereas actually
re-running the validity filter with the resolved bounds (what the
claim asserts) would return only `[(1,0), (2,20)]`. -/
theorem C2_no_refilter_counterexample :
    scalingYVals true (some 0) (some 10) [-100, 0, 20] = some [0, 20] ∧
    resolveAuto [0, 20] = some (-2, 22) ∧
    plotSingleCurveCore false true true 0 2 (some (-2)) (some 22)
        [(0, -100), (1, 0), (2, 20)] =
      .ok [(0, -100), (1, 0), (2, 20)] ∧
    plotSingleCurveCore false true false 0 2 (some (-2)) (some 22)
        [(0, -100), (1, 0), (2, 20)] =
      .ok [(1, 0), (2, 20)] ∧
    (-100 : ℚ) < -2 := by
  refine ⟨?_, ?_, ?_, ?_, by norm_num⟩
  · rfl
  · simp only [resolveAuto, List.foldl]
    norm_num
  · rfl
  · rfl

/-- Claim C2 amended: when Y auto-scale is requested, the final pass
applies no Y filtering whatsoever — both the Y stop-at-exit step and
the pointwise out-of-range removal are guarded by `not auto_scale_y` —
so the result is identical to running the pipeline with Y stop
disabled and no Y bounds at all; the resolved bounds are used only as
axis limits. -/
theorem C2_autoscale_skips_y_filter (sx sy : Bool) (xmin xmax : ℚ)
    (ey1 ey2 : Option ℚ) (pts : List (ℚ × ℚ)) :
    plotSingleCurveCore sx sy true xmin xmax ey1 ey2 pts =
      plotSingleCurveCore sx false true xmin xmax none none pts := by
  cases sy <;> cases ey1 <;> cases ey2 <;> rfl

/-! ### Claim theorems: hard errors -/

/-- Claim C5 counterexample: with `x_min = x_max = 0` and zero curves —
both conditions the claim calls structurally fatal — the pipeline does
not raise: it returns an empty figure list plus the
"No data provided for plotting" diagnostic.  (The code only raises
when `x_min > x_max` strictly.) -/
theorem C5_no_raise_counterexample :
    plotGraphsTop false false false 0 0 none none [] =
      .ok ([], [SkipR.noData]) := by
  rfl

/-- Claim C5 amended: the pipeline raises a hard error exactly when
`x_min > x_max` (strict); zero curves supplied does not raise but
returns an empty figure list with a "no data" diagnostic; per-curve
defects never raise — they are recorded in the returned skip list. -/
theorem C5_hard_error_iff (sx sy ay : Bool) (xmin xmax : ℚ)
    (uy1 uy2 : Option ℚ) (entries : List (List Char × List ℚ)) :
    (isHardError (plotGraphsTop sx sy ay xmin xmax uy1 uy2 entries) = true ↔
      xmin > xmax) ∧
    (xmin ≤ xmax →
      plotGraphsTop sx sy ay xmin xmax uy1 uy2 [] = .ok ([], [SkipR.noData])) := by
  constructor
  · by_cases h : xmin > xmax
    · simp [plotGraphsTop, isHardError, h]
    · simp only [plotGraphsTop, if_neg h]
      by_cases he : entries = []
      · simp [he, isHardError, h]
      · simp [he, isHardError, h]
  · intro hle
    have h : ¬ xmin > xmax := not_lt.mpr hle
    simp [plotGraphsTop, h]

/-- Witness for C5 at `x_min = 1 < x_max = 2` with zero curves. -/
theorem C5_hard_error_iff_witness :
    plotGraphsTop false false false 1 2 none none [] =
      .ok ([], [SkipR.noData]) :=
  (C5_hard_error_iff false false false 1 2 none none []).2 (by norm_num)

/-! ### Claim theorems: coefficient normalization -/

/-- Claim C6 counterexample: the stripping threshold in the code is
`1e-12`, not `1e-10`.  The leading coefficient `5e-11` has absolute
value below `1e-10`, so the claim says it is stripped (reported degree
0), but the code keeps it because `5e-11 ≥ 1e-12`: the vector
`[5e-11, 1]` is returned unchanged, reported degree 1. -/
theorem C6_threshold_counterexample :
    stripLeading [mkRat 5 (10 ^ 11), 1] = [mkRat 5 (10 ^ 11), 1] ∧
      |mkRat 5 (10 ^ 11)| < mkRat 1 (10 ^ 10) := by
  constructor
  · show (if ([(1 : ℚ)] ≠ [] ∧ |mkRat 5 (10 ^ 11)| < eps12) then stripLeading [(1 : ℚ)]
      else [mkRat 5 (10 ^ 11), 1]) = [mkRat 5 (10 ^ 11), 1]
    rw [if_neg]
    rintro ⟨-, hlt⟩
    revert hlt
    decide
  · decide

/-- Claim C6 amended: leading coefficients are stripped iteratively at
threshold `1e-12` (not `1e-10`), always keeping at least one entry;
when some coefficient reaches the threshold, the result is the suffix
starting at the first coefficient with `|c| ≥ 1e-12`, so the reported
degree (`length - 1` after stripping) is `length - 1 - j` for `j` the
index of that first non-negligible coefficient. -/
theorem C6_strip_at_1e12 (c : List ℚ)
    (h : (c.any fun x => decide (eps12 ≤ |x|)) = true) :
    stripLeading c = c.drop (c.findIdx fun x => decide (eps12 ≤ |x|)) ∧
      (stripLeading c).length - 1 =
        c.length - 1 - (c.findIdx fun x => decide (eps12 ≤ |x|)) := by
  induction c with
  | nil => simp at h
  | cons x rest ih =>
    by_cases hx : eps12 ≤ |x|
    · have hpx : (decide (eps12 ≤ |x|)) = true := decide_eq_true hx
      have hidx : ((x :: rest).findIdx fun y => decide (eps12 ≤ |y|)) = 0 := by
        simp [List.findIdx_cons, hpx]
      have hstr : stripLeading (x :: rest) = x :: rest := by
        show (if rest ≠ [] ∧ |x| < eps12 then stripLeading rest else x :: rest) =
          x :: rest
        rw [if_neg]
        rintro ⟨-, hlt⟩
        exact absurd hlt (not_lt.mpr hx)
      rw [hidx, hstr]
      simp
    · have hpx : (decide (eps12 ≤ |x|)) = false := decide_eq_false hx
      have hrest : (rest.any fun y => decide (eps12 ≤ |y|)) = true := by
        simp only [List.any_cons, hpx, Bool.false_or] at h
        exact h
      have hne : rest ≠ [] := by
        intro hr
        rw [hr] at hrest
        simp at hrest
      have hlt : |x| < eps12 := not_le.mp hx
      have hstr : stripLeading (x :: rest) = stripLeading rest := by
        show (if rest ≠ [] ∧ |x| < eps12 then stripLeading rest else x :: rest) =
          stripLeading rest
        rw [if_pos ⟨hne, hlt⟩]
      have hidx : ((x :: rest).findIdx fun y => decide (eps12 ≤ |y|)) =
          (rest.findIdx fun y => decide (eps12 ≤ |y|)) + 1 := by
        simp [List.findIdx_cons, hpx]
      obtain ⟨ih1, ih2⟩ := ih hrest
      constructor
      · rw [hstr, hidx, ih1]
        rfl
      · rw [hstr, hidx, ih2]
        simp only [List.length_cons]
        omega

/-- Witness for C6 at `[0, 1]`: the zero is stripped, the reported
degree drops to 0. -/
theorem C6_strip_at_1e12_witness :
    (([(0 : ℚ), 1]).any fun x => decide (eps12 ≤ |x|)) = true ∧
      stripLeading [(0 : ℚ), 1] =
        [(0 : ℚ), 1].drop (([(0 : ℚ), 1]).findIdx fun x => decide (eps12 ≤ |x|)) :=
  ⟨by decide, (C6_strip_at_1e12 [(0 : ℚ), 1] (by decide)).1⟩

/-! ### Claim theorems: all-zero rows -/

/-- Claim C7: a row whose coefficient cells all convert to effectively
zero values (e.g. `[0,0,0]`) is always skipped: the all-zero rejection
inside `extract_valid_coefficients` fires (`extractCoeffs = none`),
the curve is never appended to the output whatever the name cell and
prior state, and whenever the row got past name validation, the
duplicate check and extraction the recorded diagnostic is exactly the
extraction-stage rejection.  No range or plotting setting occurs in
the loader at all. -/
theorem C7_all_zero_always_skipped (cells : List Cell)
    (h1 : cells ≠ [])
    (h2 : ((cells.map cellCoeff).all fun q => decide (|q| < eps12)) = true) :
    extractCoeffs cells = none ∧
      (∀ nameCell st, (processRow nameCell cells st).dataRef = st.dataRef) ∧
      (∀ raw nm st, isValidDataRow (some raw) cells = true →
        extractValidName raw = some nm →
        (st.dataRef.any fun e => decide (lowerL e.name = lowerL nm)) = false →
        processRow (some raw) cells st =
          { st with skipped := st.skipped ++ [SkipMsg.noValidCoefficients] }) := by
  have ha : extractCoeffs cells = none := by
    unfold extractCoeffs
    rw [if_neg (by simpa using h1), if_pos h2]
  refine ⟨ha, ?_, ?_⟩
  · intro nameCell st
    cases nameCell with
    | none =>
      unfold processRow
      split <;> rfl
    | some raw =>
      unfold processRow
      split
      · rfl
      · cases hE : extractValidName raw with
        | none => simp only [hE]
        | some nm =>
          simp only [hE]
          split
          · rfl
          · simp only [ha]
  · intro raw nm st hv hE hd
    unfold processRow
    rw [hv]
    simp only [Bool.not_true, Bool.false_eq_true, if_false, hE, hd, ha]

/-- Witness for C7 at the row `("alpha", [0, 0, 0])`. -/
theorem C7_all_zero_always_skipped_witness :
    extractCoeffs [Cell.num 0, Cell.num 0, Cell.num 0] = none ∧
      (processRow (some ("alpha".toList)) [Cell.num 0, Cell.num 0, Cell.num 0]
        ⟨[], []⟩).dataRef = [] := by
  have h := C7_all_zero_always_skipped [Cell.num 0, Cell.num 0, Cell.num 0]
    (by decide) (by decide)
  exact ⟨h.1, h.2.1 (some ("alpha".toList)) ⟨[], []⟩⟩

/-! ### String lemmas for the name-heuristics claim -/

theorem prefixB_iff (p s : List Char) :
    prefixB p s = true ↔ ∃ t, s = p ++ t := by
  induction p generalizing s with
  | nil =>
    simp only [prefixB, List.nil_append]
    exact ⟨fun _ => ⟨s, rfl⟩, fun _ => trivial⟩
  | cons a as ih =>
    cases s with
    | nil =>
      simp only [prefixB]
      constructor
      · intro h
        exact absurd h (by simp)
      · rintro ⟨t, h⟩
        exact absurd h (by simp)
    | cons b bs =>
      simp only [prefixB, Bool.and_eq_true, beq_iff_eq, ih]
      constructor
      · rintro ⟨rfl, t, rfl⟩
        exact ⟨t, rfl⟩
      · rintro ⟨t, h⟩
        rw [List.cons_append] at h
        injection h with h1 h2
        exact ⟨h1.symm, t, h2⟩

theorem substrB_iff (p s : List Char) :
    substrB p s = true ↔ ∃ u v, s = u ++ p ++ v := by
  induction s with
  | nil =>
    simp only [substrB, prefixB_iff]
    constructor
    · rintro ⟨t, h⟩
      exact ⟨[], t, by simpa using h⟩
    · rintro ⟨u, v, h⟩
      rcases List.append_eq_nil.mp h.symm with ⟨h1, h2⟩
      rcases List.append_eq_nil.mp h1 with ⟨h3, h4⟩
      exact ⟨[], by simp [h4, h2]⟩
  | cons c rest ih =>
    simp only [substrB, Bool.or_eq_true, prefixB_iff, ih]
    constructor
    · rintro (⟨t, h⟩ | ⟨u, v, h⟩)
      · exact ⟨[], t, by simpa using h⟩
      · exact ⟨c :: u, v, by simp [h]⟩
    · rintro ⟨u, v, h⟩
      cases u with
      | nil =>
        left
        exact ⟨v, by simpa using h⟩
      | cons x xs =>
        right
        rw [List.cons_append, List.cons_append] at h
        injection h with h1 h2
        exact ⟨xs, v, h2⟩

theorem dropWS_length_le (l : List Char) : (dropWS l).length ≤ l.length := by
  induction l with
  | nil => simp [dropWS]
  | cons c rest ih =>
    by_cases hc : c.isWhitespace
    · simp only [dropWS, if_pos hc]
      exact le_trans ih (by simp)
    · simp [dropWS, if_neg hc]

theorem stripChars_length_le (l : List Char) :
    (stripChars l).length ≤ l.length := by
  unfold stripChars
  rw [List.length_reverse]
  calc (dropWS ((dropWS l).reverse)).length
      ≤ ((dropWS l).reverse).length := dropWS_length_le _
    _ = (dropWS l).length := List.length_reverse _
    _ ≤ l.length := dropWS_length_le _

theorem dropWS_append (a t : List Char) :
    dropWS (a ++ t) =
      if a.all Char.isWhitespace then dropWS t else dropWS a ++ t := by
  induction a with
  | nil => simp [dropWS]
  | cons c a ih =>
    by_cases hc : c.isWhitespace
    · simp only [List.cons_append, dropWS, if_pos hc, List.all_cons, hc,
        Bool.true_and]
      exact ih
    · simp [dropWS, if_neg hc, List.all_cons, hc]

theorem dropWS_nonWS (p b : List Char) (hp : p ≠ [])
    (hws : ∀ c ∈ p, c.isWhitespace = false) :
    dropWS (p ++ b) = p ++ b := by
  cases p with
  | nil => exact absurd rfl hp
  | cons q p2 =>
    have hq : q.isWhitespace = false := hws q (by simp)
    simp [dropWS, hq]

theorem dropWS_keeps (u p v : List Char) (hp : p ≠ [])
    (hws : ∀ c ∈ p, c.isWhitespace = false) :
    ∃ u2 v2, dropWS (u ++ p ++ v) = u2 ++ p ++ v2 := by
  rw [List.append_assoc, dropWS_append]
  split_ifs with h
  · exact ⟨[], v, by rw [dropWS_nonWS p v hp hws]; simp⟩
  · exact ⟨dropWS u, v, by simp [List.append_assoc]⟩

theorem stripChars_keeps (u p v : List Char) (hp : p ≠ [])
    (hws : ∀ c ∈ p, c.isWhitespace = false) :
    ∃ u2 v2, stripChars (u ++ p ++ v) = u2 ++ p ++ v2 := by
  obtain ⟨u2, v2, h1⟩ := dropWS_keeps u p v hp hws
  unfold stripChars
  rw [h1]
  have hrev : (u2 ++ p ++ v2).reverse = v2.reverse ++ p.reverse ++ u2.reverse := by
    simp [List.reverse_append, List.append_assoc]
  rw [hrev]
  obtain ⟨u3, v3, h2⟩ := dropWS_keeps v2.reverse p.reverse u2.reverse
    (by simpa using hp)
    (by intro c hc; exact hws c (List.mem_reverse.mp hc))
  rw [h2]
  exact ⟨v3.reverse, u3.reverse, by simp [List.reverse_append, List.append_assoc]⟩

theorem replDouble_eq3 (a b : Char) (rest : List Char) :
    replDouble (a :: b :: rest) =
      if a = ' ' ∧ b = ' ' then ' ' :: replDouble rest
      else a :: replDouble (b :: rest) := rfl

theorem replDouble_front (p b : List Char) (hsp : ∀ c ∈ p, ¬ c = ' ') :
    replDouble (p ++ b) = p ++ replDouble b := by
  induction p with
  | nil => rfl
  | cons c p2 ih =>
    have hc : ¬ c = ' ' := hsp c (by simp)
    have ih2 := ih fun x hx => hsp x (by simp [hx])
    cases hpb : p2 ++ b with
    | nil =>
      have hp2 : p2 = [] := by
        cases p2 with
        | nil => rfl
        | cons y ys => simp at hpb
      have hb : b = [] := by
        subst hp2
        simpa using hpb
      subst hp2
      subst hb
      rfl
    | cons d rest =>
      have hre : (c :: p2) ++ b = c :: d :: rest := by
        rw [List.cons_append, hpb]
      rw [hre, replDouble_eq3, if_neg (by rintro ⟨hc1, -⟩; exact hc hc1)]
      rw [← hpb, ih2]
      rfl

theorem replDouble_keeps : ∀ (u p v : List Char), p ≠ [] →
    (∀ c ∈ p, ¬ c = ' ') →
    ∃ u2 v2, replDouble (u ++ p ++ v) = u2 ++ p ++ v2
  | [], p, v, _, hsp =>
    ⟨[], replDouble v, by rw [List.nil_append, replDouble_front p v hsp]⟩
  | [x], p, v, hp, hsp => by
    obtain ⟨q, p2, rfl⟩ : ∃ q p2, p = q :: p2 := by
      cases p with
      | nil => exact absurd rfl hp
      | cons q p2 => exact ⟨q, p2, rfl⟩
    have hq : ¬ q = ' ' := hsp q (by simp)
    refine ⟨[x], replDouble v, ?_⟩
    have hre : ([x] ++ (q :: p2) ++ v) = x :: q :: (p2 ++ v) := by simp
    rw [hre, replDouble_eq3, if_neg (by rintro ⟨-, h2⟩; exact hq h2)]
    have h3 : q :: (p2 ++ v) = (q :: p2) ++ v := rfl
    rw [h3, replDouble_front (q :: p2) v hsp]
    rfl
  | x :: y :: u2, p, v, hp, hsp => by
    by_cases hxy : x = ' ' ∧ y = ' '
    · obtain ⟨u3, v3, h⟩ := replDouble_keeps u2 p v hp hsp
      refine ⟨' ' :: u3, v3, ?_⟩
      have hre : ((x :: y :: u2) ++ p ++ v) = x :: y :: (u2 ++ p ++ v) := by simp
      rw [hre, replDouble_eq3, if_pos hxy, h]
      rfl
    · obtain ⟨u3, v3, h⟩ := replDouble_keeps (y :: u2) p v hp hsp
      refine ⟨x :: u3, v3, ?_⟩
      have hre : ((x :: y :: u2) ++ p ++ v) = x :: y :: (u2 ++ p ++ v) := by simp
      rw [hre, replDouble_eq3, if_neg hxy]
      have h2 : y :: (u2 ++ p ++ v) = (y :: u2) ++ p ++ v := by simp
      rw [h2, h]
      rfl
termination_by u _ _ _ _ => u.length

theorem lowerC_ws (c : Char) : (lowerC c).isWhitespace = c.isWhitespace := by
  unfold lowerC
  split <;> rfl

theorem lowerC_space (c : Char) : (lowerC c = ' ') ↔ (c = ' ') := by
  unfold lowerC
  split <;> simp_all

theorem lowerL_dropWS (s : List Char) :
    lowerL (dropWS s) = dropWS (lowerL s) := by
  induction s with
  | nil => rfl
  | cons c rest ih =>
    by_cases hc : c.isWhitespace
    · have hc2 : (lowerC c).isWhitespace = true := by rw [lowerC_ws]; exact hc
      rw [show dropWS (c :: rest) = dropWS rest from by simp [dropWS, hc]]
      rw [show lowerL (c :: rest) = lowerC c :: lowerL rest from rfl]
      rw [show dropWS (lowerC c :: lowerL rest) = dropWS (lowerL rest) from by
        simp [dropWS, hc2]]
      exact ih
    · have hc2 : ¬ (lowerC c).isWhitespace = true := by rw [lowerC_ws]; exact hc
      rw [show dropWS (c :: rest) = c :: rest from by simp [dropWS, hc]]
      rw [show lowerL (c :: rest) = lowerC c :: lowerL rest from rfl]
      simp [dropWS, hc2]

theorem lowerL_reverse (s : List Char) :
    lowerL s.reverse = (lowerL s).reverse := by
  simp [lowerL]

theorem lowerL_stripChars (s : List Char) :
    lowerL (stripChars s) = stripChars (lowerL s) := by
  unfold stripChars
  simp only [lowerL_reverse, lowerL_dropWS]

theorem lowerL_replDouble : ∀ s, lowerL (replDouble s) = replDouble (lowerL s)
  | [] => rfl
  | [_] => rfl
  | a :: b :: rest => by
    by_cases h : a = ' ' ∧ b = ' '
    · obtain ⟨ha, hb⟩ := h
      subst ha
      subst hb
      rw [replDouble_eq3, if_pos ⟨rfl, rfl⟩]
      rw [show lowerL (' ' :: replDouble rest) = ' ' :: lowerL (replDouble rest)
        from rfl]
      rw [show lowerL (' ' :: ' ' :: rest) = ' ' :: ' ' :: lowerL rest from rfl]
      rw [replDouble_eq3, if_pos ⟨rfl, rfl⟩, lowerL_replDouble rest]
    · rw [replDouble_eq3, if_neg h]
      rw [show lowerL (a :: replDouble (b :: rest)) =
        lowerC a :: lowerL (replDouble (b :: rest)) from rfl]
      rw [show lowerL (a :: b :: rest) = lowerC a :: lowerC b :: lowerL rest
        from rfl]
      rw [replDouble_eq3,
        if_neg (by rw [lowerC_space, lowerC_space]; exact h)]
      rw [lowerL_replDouble (b :: rest)]
      rfl
termination_by s => s.length

theorem extractValidName_pattern_none (raw : List Char)
    (h : (invalidPatterns.any fun p => substrB p (lowerL raw)) = true) :
    extractValidName raw = none := by
  rcases List.any_eq_true.mp h with ⟨p, hpmem, hpsub⟩
  have hfacts : ∀ q ∈ invalidPatterns,
      q ≠ [] ∧ ∀ c ∈ q, c.isWhitespace = false ∧ ¬ c = ' ' := by decide
  obtain ⟨hpne, hpc⟩ := hfacts p hpmem
  obtain ⟨u, v, hdec⟩ := (substrB_iff p (lowerL raw)).mp hpsub
  have hcond : (invalidPatterns.any fun q =>
      substrB q (lowerL (replDouble (stripChars (stripChars raw))))) = true := by
    have hcomm : lowerL (replDouble (stripChars (stripChars raw))) =
        replDouble (stripChars (stripChars (lowerL raw))) := by
      rw [lowerL_replDouble, lowerL_stripChars, lowerL_stripChars]
    rw [hcomm, hdec]
    obtain ⟨u2, v2, h1⟩ := stripChars_keeps u p v hpne fun c hc => (hpc c hc).1
    rw [h1]
    obtain ⟨u3, v3, h2⟩ := stripChars_keeps u2 p v2 hpne fun c hc => (hpc c hc).1
    rw [h2]
    obtain ⟨u4, v4, h3⟩ := replDouble_keeps u3 p v3 hpne fun c hc => (hpc c hc).2
    rw [h3]
    exact List.any_eq_true.mpr ⟨p, hpmem, (substrB_iff _ _).mpr ⟨u4, v4, rfl⟩⟩
  unfold extractValidName
  split_ifs
  · rfl
  · rfl

/-! ### Claim theorems: generic-name exclusion -/

/-- Claim C10: every row whose curve name, lowercased, contains one of
the generic substrings (`unnamed`, `curve`, `poly`, `equation`,
`data`, `row`, `sample`, `test`, `example`, `default`), or whose name
has fewer than 2 characters, or whose (stripped, lowercased) name
parses as a float, is excluded from the loader output — whatever the
coefficient cells and the prior state.  The substring check lives in
`extract_valid_name` (lines 200-208), the length and float checks in
`is_valid_data_row` (lines 162-171). -/
theorem C10_generic_names_excluded (raw : List Char) (cells : List Cell)
    (st : LoaderState)
    (h : (invalidPatterns.any fun p => substrB p (lowerL raw)) = true
       ∨ raw.length < 2
       ∨ pyFloatOk (lowerL (stripChars raw)) = true) :
    (processRow (some raw) cells st).dataRef = st.dataRef := by
  rcases h with h | h | h
  · have hE : extractValidName raw = none := extractValidName_pattern_none raw h
    unfold processRow
    split
    · rfl
    · simp only [hE]
  · have hmap : (lowerL (stripChars raw)).length = (stripChars raw).length := by
      simp [lowerL]
    have hlen : (lowerL (stripChars raw)).length < 2 := by
      have h1 : (stripChars raw).length ≤ raw.length := stripChars_length_le raw
      omega
    have hv : isValidDataRow (some raw) cells = false := by
      simp [isValidDataRow, hlen]
    unfold processRow
    rw [hv]
    rfl
  · have hv : isValidDataRow (some raw) cells = false := by
      simp [isValidDataRow, h]
    unfold processRow
    rw [hv]
    rfl

/-- Witness for C10 at the row name `"Test Curve"` (contains both
`test` and `curve` once lowercased) with a valid coefficient cell. -/
theorem C10_generic_names_excluded_witness :
    (invalidPatterns.any fun p => substrB p (lowerL ("Test Curve".toList))) = true ∧
      (processRow (some ("Test Curve".toList)) [Cell.num 1]
        ⟨[], []⟩).dataRef = [] :=
  ⟨by decide,
    C10_generic_names_excluded ("Test Curve".toList) [Cell.num 1] ⟨[], []⟩
      (Or.inl (by decide))⟩

end Grapher
